import Mathlib

/-!
Verification of the evaluation orchestration and metrics engine of an
LLM-evaluation platform.  The definitions below are a shallow embedding of
`app/evaluators/basic_evaluator.py` (tokenizer, ROUGE, BLEU, heuristic
scorers, metric gating) and `app/services/evaluation_service.py`
(framework fan-out, bulk evaluation, model comparison).  Python floats are
modelled by `ℚ` (and by `ℝ` where `math.exp`/`math.log` occur); Python
dicts keyed by strings are modelled by association lists; `None`/empty
strings by `""`; exceptions by `Except String`.
-/

namespace LLMEval

/-! ### Tokenizer: `BasicEvaluator._tokenize`, i.e. `re.findall(r'\b\w+\b', text.lower())`.
A Python word character (ASCII) is an alphanumeric character or `_`. -/

def isWordChar (c : Char) : Bool := c.isAlphanum || c == '_'

def dropWhile_length_le {α : Type} (p : α → Bool) (l : List α) :
    (l.dropWhile p).length ≤ l.length := by
  induction l with
  | nil => simp
  | cons a as ih =>
    by_cases h : p a
    · simp only [List.dropWhile_cons, h, if_true]
      exact Nat.le_succ_of_le ih
    · simp [List.dropWhile_cons, h]

/-- Scanner for `re.findall(r'\b\w+\b', ·)`: accumulate the current run of
word characters (in reverse) and emit it when a non-word character or the
end of input is reached. -/
def tokenizeAux : List Char → List Char → List (List Char)
  | [], acc => if acc = [] then [] else [acc.reverse]
  | c :: cs, acc =>
    if isWordChar c then tokenizeAux cs (c :: acc)
    else if acc = [] then tokenizeAux cs []
    else acc.reverse :: tokenizeAux cs []

/-- `BasicEvaluator._tokenize`: lower-case, then extract the maximal runs of
word characters.  Empty input yields `[]` (the `if not text` guard). -/
def tokenize (text : String) : List String :=
  if text = "" then []
  else (tokenizeAux (text.data.map Char.toLower) []).map (fun l => (⟨l⟩ : String))

/-- Declarative description of `re.findall(r'\b\w+\b', ·)` used to state the
tokenizer claim: the ordered list of maximal runs of word characters. -/
def wordRuns : List Char → List (List Char)
  | [] => []
  | c :: cs =>
    if isWordChar c then (c :: cs.takeWhile isWordChar) :: wordRuns (cs.dropWhile isWordChar)
    else wordRuns cs
termination_by l => l.length
decreasing_by
  all_goals simp_wf
  all_goals exact Nat.lt_succ_of_le (dropWhile_length_le _ _)

/-! ### N-grams: `BasicEvaluator._get_ngrams`. -/

def get_ngrams (tokens : List String) (n : ℕ) : List (List String) :=
  if tokens.length < n then []
  else (List.range (tokens.length - n + 1)).map (fun i => (tokens.drop i).take n)

/-! ### Longest common subsequence: `lcs_length` inside `_calculate_lcs_f1`. -/

def lcs_length : List String → List String → ℕ
  | [], _ => 0
  | _ :: _, [] => 0
  | a :: x, b :: y =>
    if a = b then lcs_length x y + 1
    else max (lcs_length (a :: x) y) (lcs_length x (b :: y))
termination_by x y => x.length + y.length

/-- `BasicEvaluator._calculate_lcs_f1`. -/
def calculate_lcs_f1 (candidate_tokens reference_tokens : List String) : ℚ :=
  let lcs_len := lcs_length candidate_tokens reference_tokens
  if candidate_tokens = [] ∨ reference_tokens = [] then 0
  else
    let precision : ℚ := (lcs_len : ℚ) / candidate_tokens.length
    let recallScore : ℚ := (lcs_len : ℚ) / reference_tokens.length
    if precision + recallScore = 0 then 0
    else 2 * (precision * recallScore) / (precision + recallScore)

structure RougeScores where
  rouge1 : ℚ
  rouge2 : ℚ
  rougeL : ℚ
deriving DecidableEq, Repr

/-- `BasicEvaluator._calculate_rouge`. -/
def calculate_rouge (candidate reference : String) : RougeScores :=
  let candidate_tokens := tokenize candidate
  let reference_tokens := tokenize reference
  if candidate_tokens = [] ∨ reference_tokens = [] then ⟨0, 0, 0⟩
  else
    let candidate_unigrams := candidate_tokens.toFinset
    let reference_unigrams := reference_tokens.toFinset
    let overlap_unigrams := candidate_unigrams ∩ reference_unigrams
    let rouge1_precision : ℚ :=
      if candidate_unigrams ≠ ∅ then (overlap_unigrams.card : ℚ) / candidate_unigrams.card else 0
    let rouge1_recall : ℚ :=
      if reference_unigrams ≠ ∅ then (overlap_unigrams.card : ℚ) / reference_unigrams.card else 0
    let rouge1_f1 : ℚ :=
      if rouge1_precision + rouge1_recall > 0 then
        2 * (rouge1_precision * rouge1_recall) / (rouge1_precision + rouge1_recall)
      else 0
    let candidate_bigrams := (get_ngrams candidate_tokens 2).toFinset
    let reference_bigrams := (get_ngrams reference_tokens 2).toFinset
    let overlap_bigrams := candidate_bigrams ∩ reference_bigrams
    let rouge2_precision : ℚ :=
      if candidate_bigrams ≠ ∅ then (overlap_bigrams.card : ℚ) / candidate_bigrams.card else 0
    let rouge2_recall : ℚ :=
      if reference_bigrams ≠ ∅ then (overlap_bigrams.card : ℚ) / reference_bigrams.card else 0
    let rouge2_f1 : ℚ :=
      if rouge2_precision + rouge2_recall > 0 then
        2 * (rouge2_precision * rouge2_recall) / (rouge2_precision + rouge2_recall)
      else 0
    ⟨rouge1_f1, rouge2_f1, calculate_lcs_f1 candidate_tokens reference_tokens⟩

/-! ### BLEU: `BasicEvaluator._calculate_bleu`.
The clipped n-gram precisions are exact rationals; the final score uses
`math.exp` / `math.log`, modelled over `ℝ`. -/

/-- Clipped n-gram precision of order `n` (the loop body of `_calculate_bleu`):
`overlap / len(candidate_ngrams)` with `overlap = Σ_g min(cand_count g, ref_count g)`,
and `0.0` when the candidate has no n-grams of that order. -/
def bleu_precision (candidate reference : String) (n : ℕ) : ℚ :=
  let candidate_ngrams := get_ngrams (tokenize candidate) n
  let reference_ngrams := get_ngrams (tokenize reference) n
  if candidate_ngrams = [] then 0
  else
    let overlap := ((candidate_ngrams.dedup).map
      (fun g => min (candidate_ngrams.count g) (reference_ngrams.count g))).sum
    (overlap : ℚ) / candidate_ngrams.length

/-- The four precisions for `n = 1..4` (the `for n in range(1, 5)` loop). -/
def bleu_precisions (candidate reference : String) : List ℚ :=
  [1, 2, 3, 4].map (bleu_precision candidate reference)

/-- `BasicEvaluator._calculate_bleu`: weighted-geometric-mean of the four
precisions (equal weights 0.25) via `exp`/`log` when all are positive, else 0;
multiplied by the brevity penalty `min(1, exp(1 - |ref| / |cand|))`. -/
noncomputable def calculate_bleu (candidate reference : String) : ℝ :=
  let candidate_tokens := tokenize candidate
  let reference_tokens := tokenize reference
  if candidate_tokens = [] ∨ reference_tokens = [] then 0
  else
    let precisions := bleu_precisions candidate reference
    let bleu_score : ℝ :=
      if precisions.all (fun p => decide (0 < p)) then
        Real.exp ((precisions.map (fun (p : ℚ) => (1 / 4 : ℝ) * Real.log ((p : ℚ) : ℝ))).sum)
      else 0
    let bp : ℝ := min 1 (Real.exp (1 - (reference_tokens.length : ℝ) / candidate_tokens.length))
    bp * bleu_score

/-! ### Sentence splitting and helpers shared by the heuristic scorers. -/

/-- Split a character list at every `.`, `!` or `?`; pieces between adjacent
separators are empty and are discarded by the blank filter below, which makes
this piecewise split agree with `re.split(r'[.!?]+', ·)` after filtering. -/
def splitPunct : List Char → List (List Char)
  | [] => [[]]
  | c :: cs =>
    if c = '.' ∨ c = '!' ∨ c = '?' then [] :: splitPunct cs
    else
      match splitPunct cs with
      | [] => [[c]]
      | p :: ps => (c :: p) :: ps

/-- Python `str.strip()`: drop leading and trailing whitespace. -/
def stripChars (l : List Char) : List Char :=
  ((l.dropWhile Char.isWhitespace).reverse.dropWhile Char.isWhitespace).reverse

/-- `[s.strip() for s in re.split(r'[.!?]+', text) if s.strip()]`. -/
def sentencesOf (text : String) : List String :=
  (((splitPunct text.data).map stripChars).filter (fun l => l ≠ [])).map
    (fun l => (⟨l⟩ : String))

/-- Python substring test `needle in hay` on character lists. -/
def containsSeq (needle : List Char) : List Char → Bool
  | [] => needle.isPrefixOf []
  | c :: t => needle.isPrefixOf (c :: t) || containsSeq needle t

/-- `re.findall(r'\b[A-Z][a-z]+\b', ·)`: scan left to right; at a position
preceded by a non-word character (or the start), an uppercase letter followed
by a non-empty maximal run of lowercase letters that ends at a word boundary
is a match, and scanning resumes after it. -/
def findEntities : List Char → Bool → List (List Char)
  | [], _ => []
  | c :: cs, prevWord =>
    if !prevWord && c.isUpper then
      let low := cs.takeWhile Char.isLower
      let rest := cs.dropWhile Char.isLower
      if low ≠ [] && rest.head?.all (fun d => !isWordChar d) then
        (c :: low) :: findEntities rest true
      else findEntities cs (isWordChar c)
    else findEntities cs (isWordChar c)
termination_by l _ => l.length
decreasing_by
  all_goals simp_wf
  all_goals exact Nat.lt_succ_of_le (dropWhile_length_le _ _)

def listMax : List ℕ → ℕ
  | [] => 0
  | [a] => a
  | a :: b :: t => max a (listMax (b :: t))

def listMin : List ℕ → ℕ
  | [] => 0
  | [a] => a
  | a :: b :: t => min a (listMin (b :: t))

def connectors : List String :=
  ["however", "therefore", "moreover", "furthermore", "additionally",
   "consequently", "meanwhile", "similarly", "in contrast", "as a result"]

/-- `BasicEvaluator._calculate_coherence`. -/
def calculate_coherence (text : String) : ℚ :=
  if text = "" then 0
  else
    let sentences := sentencesOf text
    if sentences.length < 2 then 4 / 5
    else
      let entities := findEntities text.data false
      let score1 : ℚ := if entities ≠ [] then (entities.dedup.length : ℚ) / entities.length else 0
      let factors1 : ℚ := if entities ≠ [] then 1 else 0
      let connector_count :=
        (connectors.filter (fun con => containsSeq con.data (text.data.map Char.toLower))).length
      let connector_score : ℚ := min 1 ((connector_count : ℚ) / sentences.length)
      let score2 := score1 + connector_score
      let factors2 := factors1 + 1
      let lengths := sentences.map (fun s => (tokenize s).length)
      let score3 : ℚ :=
        if lengths ≠ [] then
          score2 + (1 - ((listMax lengths : ℚ) - (listMin lengths : ℚ)) / ((listMax lengths : ℚ) + 1))
        else score2
      let factors3 : ℚ := if lengths ≠ [] then factors2 + 1 else factors2
      if factors3 > 0 then score3 / factors3 else 1 / 2

/-- `BasicEvaluator._calculate_relevance`. -/
def calculate_relevance (question answer context : String) : ℚ :=
  if question = "" ∨ answer = "" then 0
  else
    let question_tokens := (tokenize question).toFinset
    let answer_tokens := (tokenize answer).toFinset
    let context_tokens := if context ≠ "" then (tokenize context).toFinset else ∅
    let question_relevance : ℚ :=
      if question_tokens ≠ ∅ then
        ((question_tokens ∩ answer_tokens).card : ℚ) / question_tokens.card
      else 0
    let context_relevance : ℚ :=
      if context_tokens ≠ ∅ then
        ((context_tokens ∩ answer_tokens).card : ℚ) / context_tokens.card
      else 0
    if context ≠ "" then 7 / 10 * question_relevance + 3 / 10 * context_relevance
    else question_relevance

def grammar_markers : List String :=
  ["the", "a", "an", "is", "are", "was", "were", "have", "has", "had"]

/-- `BasicEvaluator._calculate_fluency`. -/
def calculate_fluency (text : String) : ℚ :=
  if text = "" then 0
  else
    let sentences := sentencesOf text
    let score1 : ℚ :=
      if sentences ≠ [] then
        max 0 (1 - |((sentences.map (fun s => ((tokenize s).length : ℚ))).sum / sentences.length) - 15| / 20)
      else 0
    let factors1 : ℚ := if sentences ≠ [] then 1 else 0
    let tokens := tokenize text
    let score2 : ℚ :=
      if tokens ≠ [] then
        score1 + max 0 (1 - |((tokens.filter (fun t => t ∈ grammar_markers)).length : ℚ) / tokens.length - 3 / 10| / (3 / 10))
      else score1
    let factors2 : ℚ := if tokens ≠ [] then factors1 + 1 else factors1
    let punct_count := (text.data.filter (fun c => c = '.' ∨ c = '!' ∨ c = '?')).length
    let score3 : ℚ :=
      if sentences.length > 0 then score2 + min 1 ((punct_count : ℚ) / sentences.length)
      else score2
    let factors3 : ℚ := if sentences.length > 0 then factors2 + 1 else factors2
    if factors3 > 0 then score3 / factors3 else 1 / 2

def stop_words : List String :=
  ["the", "a", "an", "and", "or", "but", "in", "on", "at", "to", "for",
   "of", "with", "by", "is", "are", "was", "were", "be", "been", "being",
   "have", "has", "had", "do", "does", "did", "will", "would", "could",
   "should", "may", "might", "must", "can", "this", "that", "these",
   "those", "i", "you", "he", "she", "it", "we", "they", "me", "him",
   "her", "us", "them", "my", "your", "his", "her", "its", "our", "their"]

/-- `BasicEvaluator._calculate_informativeness`. -/
def calculate_informativeness (text : String) : ℚ :=
  if text = "" then 0
  else
    let tokens := tokenize text
    if tokens = [] then 0
    else
      let vocabulary_richness : ℚ := (tokens.dedup.length : ℚ) / tokens.length
      let content_words := tokens.filter (fun t => t ∉ stop_words)
      let content_ratio : ℚ := if tokens ≠ [] then (content_words.length : ℚ) / tokens.length else 0
      min 1 (3 / 5 * vocabulary_richness + 2 / 5 * content_ratio)

/-- `BasicEvaluator._calculate_meteor_approx`. -/
def calculate_meteor_approx (candidate reference : String) : ℚ :=
  let candidate_tokens := tokenize candidate
  let reference_tokens := tokenize reference
  if candidate_tokens = [] ∨ reference_tokens = [] then 0
  else
    let candidate_set := candidate_tokens.toFinset
    let reference_set := reference_tokens.toFinset
    let matchCount := (candidate_set ∩ reference_set).card
    let precision : ℚ := if candidate_set ≠ ∅ then (matchCount : ℚ) / candidate_set.card else 0
    let recallScore : ℚ := if reference_set ≠ ∅ then (matchCount : ℚ) / reference_set.card else 0
    if precision + recallScore = 0 then 0
    else
      let f_mean := 10 * precision * recallScore / (9 * precision + recallScore)
      let penalty : ℚ :=
        if candidate_tokens ≠ [] then 1 / 2 * ((matchCount : ℚ) / candidate_tokens.length) else 0
      f_mean * (1 - penalty)

/-- `BasicEvaluator._calculate_length_ratio`. -/
def calculate_length_ratio (candidate reference : String) : ℚ :=
  if reference = "" then 0
  else
    let candidate_length := (tokenize candidate).length
    let reference_length := (tokenize reference).length
    if reference_length = 0 then (if candidate_length = 0 then 1 else 0)
    else
      let ratio : ℚ := (candidate_length : ℚ) / reference_length
      1 - |1 - ratio| / max 1 ratio

/-- `BasicEvaluator._calculate_word_overlap`. -/
def calculate_word_overlap (candidate reference : String) : ℚ :=
  let candidate_tokens := (tokenize candidate).toFinset
  let reference_tokens := (tokenize reference).toFinset
  if candidate_tokens = ∅ ∧ reference_tokens = ∅ then 1
  else if candidate_tokens = ∅ ∨ reference_tokens = ∅ then 0
  else
    let overlap := candidate_tokens ∩ reference_tokens
    let union := candidate_tokens ∪ reference_tokens
    if union ≠ ∅ then (overlap.card : ℚ) / union.card else 0

/-- `BasicEvaluator._calculate_sentence_similarity`. -/
def calculate_sentence_similarity (candidate reference : String) : ℚ :=
  let candidate_sentences := sentencesOf candidate
  let reference_sentences := sentencesOf reference
  if candidate_sentences = [] ∨ reference_sentences = [] then 0
  else
    let similarities := candidate_sentences.map (fun cand_sent =>
      let cand_tokens := (tokenize cand_sent).toFinset
      reference_sentences.foldl (fun best_sim ref_sent =>
        let ref_tokens := (tokenize ref_sent).toFinset
        if cand_tokens ≠ ∅ ∧ ref_tokens ≠ ∅ then
          max best_sim
            (if (cand_tokens ∪ ref_tokens) ≠ ∅ then
              ((cand_tokens ∩ ref_tokens).card : ℚ) / (cand_tokens ∪ ref_tokens).card
             else 0)
        else best_sim) 0)
    if similarities ≠ [] then similarities.sum / similarities.length else 0

/-! ### Metric gating: `BasicEvaluator.evaluate`. -/

def available_metrics : List String :=
  ["rouge1", "rouge2", "rougeL", "bleu", "meteor_approx",
   "coherence", "relevance", "fluency", "informativeness",
   "length_ratio", "word_overlap", "sentence_similarity"]

/-- The evaluation context dictionary handed to each evaluator
(`question`, `answer`, `expected_answer`, `context`, `category`); missing
or `None` entries are the empty string, matching `eval_context.get(·, "")`
and Python truthiness. -/
structure EvalCtx where
  question : String
  answer : String
  expected_answer : String
  context : String
  category : String
deriving DecidableEq, Repr

/-- `selected_metrics or self.available_metrics` (an empty selection is falsy
in Python and also falls back to the full catalog). -/
def effective_metrics (selected : Option (List String)) : List String :=
  match selected with
  | none => available_metrics
  | some l => if l = [] then available_metrics else l

/-- `BasicEvaluator.evaluate`: compute each selected metric, gating the
reference-based ones on a non-empty `expected_answer`.  The blocks appear in
source order; each contributes its `results[...] = ...` entries. -/
noncomputable def evaluate (ctx : EvalCtx) (selected : Option (List String)) :
    List (String × ℝ) :=
  let mtc := effective_metrics selected
  let expected := ctx.expected_answer
  let answer := ctx.answer
  (if expected ≠ "" ∧ mtc.any (fun m => "rouge".data.isPrefixOf m.data) then
      (["rouge1", "rouge2", "rougeL"].filter (fun m => m ∈ mtc)).map (fun m =>
        (m, ((if m = "rouge1" then (calculate_rouge answer expected).rouge1
              else if m = "rouge2" then (calculate_rouge answer expected).rouge2
              else (calculate_rouge answer expected).rougeL : ℚ) : ℝ)))
    else [])
  ++ (if "bleu" ∈ mtc ∧ expected ≠ "" then [("bleu", calculate_bleu answer expected)] else [])
  ++ (if "meteor_approx" ∈ mtc ∧ expected ≠ "" then
        [("meteor_approx", ((calculate_meteor_approx answer expected : ℚ) : ℝ))] else [])
  ++ (if "coherence" ∈ mtc then [("coherence", ((calculate_coherence answer : ℚ) : ℝ))] else [])
  ++ (if "relevance" ∈ mtc then
        [("relevance", ((calculate_relevance ctx.question answer ctx.context : ℚ) : ℝ))] else [])
  ++ (if "fluency" ∈ mtc then [("fluency", ((calculate_fluency answer : ℚ) : ℝ))] else [])
  ++ (if "informativeness" ∈ mtc then
        [("informativeness", ((calculate_informativeness answer : ℚ) : ℝ))] else [])
  ++ (if "length_ratio" ∈ mtc ∧ expected ≠ "" then
        [("length_ratio", ((calculate_length_ratio answer expected : ℚ) : ℝ))] else [])
  ++ (if "word_overlap" ∈ mtc ∧ expected ≠ "" then
        [("word_overlap", ((calculate_word_overlap answer expected : ℚ) : ℝ))] else [])
  ++ (if "sentence_similarity" ∈ mtc ∧ expected ≠ "" then
        [("sentence_similarity", ((calculate_sentence_similarity answer expected : ℚ) : ℝ))] else [])

/-- The metrics whose computation `BasicEvaluator.evaluate` gates on a
non-empty `expected_answer`. -/
def gated_metrics : List String :=
  ["rouge1", "rouge2", "rougeL", "bleu", "meteor_approx",
   "length_ratio", "word_overlap", "sentence_similarity"]

/-! ### Orchestrator: `EvaluationService._run_evaluations`.
A framework is a named scorer that, given the evaluation context and the
metric selection, either returns a metric map or raises (`Except.error`).
`asyncio.gather(..., return_exceptions=True)` turns each raised exception
into a value, so the fan-out itself is a total function. -/

abbrev MetricMap := List (String × ℚ)

abbrev Registry := List (String × (EvalCtx → Option (List String) → Except String MetricMap))

inductive FrameworkResult where
  | ok (metrics : MetricMap)
  | error (message : String)
deriving DecidableEq, Repr

def FrameworkResult.isError : FrameworkResult → Bool
  | .ok _ => false
  | .error _ => true

def exceptFails {α : Type} (e : Except String α) : Bool :=
  match e with
  | .ok _ => false
  | .error _ => true

/-- Python `dict.update`: entries of `upd` override entries of `base`. -/
def dictUpdate (base upd : MetricMap) : MetricMap :=
  base.filter (fun p => !((upd.map Prod.fst).contains p.1)) ++ upd

structure AggregatedResult where
  automatic_metrics : MetricMap
  framework_scores : List (String × FrameworkResult)
deriving DecidableEq, Repr

/-- `EvaluationService._run_evaluations`: dispatch the context to every
registered framework (`asyncio.gather` with `return_exceptions=True`), then
fold the per-framework outcomes into `framework_scores`, capturing an
exception as an error entry, and merge the `basic` framework's metric map
into `automatic_metrics`. -/
def run_evaluations (registry : Registry) (ctx : EvalCtx)
    (selected : Option (List String)) : AggregatedResult :=
  let framework_results := registry.map (fun nf => nf.2 ctx selected)
  let framework_scores := (registry.zip framework_results).map (fun p =>
    (p.1.1,
      match p.2 with
      | .ok m => FrameworkResult.ok m
      | .error e => FrameworkResult.error e))
  let automatic_metrics := (registry.zip framework_results).foldl (fun acc p =>
    match p.2 with
    | .ok m => if p.1.1 = "basic" then dictUpdate acc m else acc
    | .error _ => acc) []
  ⟨automatic_metrics, framework_scores⟩

/-! ### Bulk evaluation: `EvaluationService.evaluate_bulk`.
`evaluate_single` is abstracted as a function from a context to a result or
an exception; a batch is gathered with `return_exceptions=True` and each
exception becomes an error record at the item's position. -/

inductive BulkResult (R : Type) where
  | success (result : R)
  | failed (error : String) (evaluation_data : EvalCtx)
deriving DecidableEq, Repr

/-- The per-item outcome inside a batch: an exception from `evaluate_single`
becomes an error record (`status="failed"`, original error message, original
request data); otherwise the item's own result is appended. -/
def bulkProcessOne {R : Type} (single : EvalCtx → Except String R) (e : EvalCtx) :
    BulkResult R :=
  match single e with
  | .ok r => .success r
  | .error msg => .failed msg e

/-- `EvaluationService.evaluate_bulk`: process the inputs in batches of
`batch_size` (the `range(0, total, batch_size)` loop requires a positive
step; the claims below assume `0 < batch_size`), appending each batch's
results in input order. -/
def evaluate_bulk {R : Type} (single : EvalCtx → Except String R) (batch_size : ℕ)
    (evaluations : List EvalCtx) : List (BulkResult R) :=
  if _hstop : batch_size = 0 ∨ evaluations = [] then []
  else
    ((evaluations.take batch_size).map (bulkProcessOne single))
      ++ evaluate_bulk single batch_size (evaluations.drop batch_size)
termination_by evaluations.length
decreasing_by
  rcases Nat.eq_zero_or_pos batch_size with h0 | h0
  · exact absurd (Or.inl h0) _hstop
  · have hne : evaluations ≠ [] := fun hnil => _hstop (Or.inr hnil)
    have : 0 < evaluations.length := List.length_pos.mpr hne
    simp only [List.length_drop]
    omega

/-! ### Comparator: `EvaluationService._determine_winner`. -/

/-- A Python value stored in a metric map: a number, or something
non-numeric (string, None, ...) that `isinstance(score, (int, float))`
rejects. -/
inductive PyVal where
  | num (q : ℚ)
  | str (s : String)
  | none
deriving DecidableEq, Repr

/-- A per-framework entry of `framework_scores`: a dict of metric values, or
a non-dict value that the `isinstance(scores, dict)` check skips. -/
inductive FrameworkScoresVal where
  | dict (entries : List (String × PyVal))
  | nonDict
deriving DecidableEq, Repr

/-- One element of the `comparisons` list built by `compare_models`. -/
structure Comparison where
  model_name : String
  status : String
  metrics : List (String × PyVal)
  framework_scores : List (String × FrameworkScoresVal)
  response_time : ℚ
  cost : Option ℚ
deriving DecidableEq, Repr

structure ModelScore where
  model : String
  score : ℚ
  response_time : ℚ
  cost : ℚ
deriving DecidableEq, Repr

def numericOf : PyVal → Option ℚ
  | .num q => some q
  | _ => Option.none

/-- `all_scores` for one comparison: every numeric value of the flattened
`metrics` dict followed by every numeric value in each framework's score
dict. -/
def allScoresOf (c : Comparison) : List ℚ :=
  (c.metrics.filterMap (fun p => numericOf p.2))
    ++ (c.framework_scores.flatMap (fun fs =>
          match fs.2 with
          | .dict entries => entries.filterMap (fun p => numericOf p.2)
          | .nonDict => []))

/-- `overall_score = sum(all_scores) / len(all_scores) if all_scores else 0`. -/
def compositeOf (c : Comparison) : ℚ :=
  let all_scores := allScoresOf c
  if all_scores = [] then 0 else all_scores.sum / all_scores.length

/-- The `model_scores` record for one completed comparison
(`comparison.get("cost", 0) or 0` maps a missing/None/zero cost to 0). -/
def scoreOf (c : Comparison) : ModelScore :=
  ⟨c.model_name, compositeOf c, c.response_time, c.cost.getD 0⟩

/-- Lexicographic order on the Python sort key `(-score, response_time, cost)`. -/
def tripleLex (x y : ℚ × ℚ × ℚ) : Prop :=
  x.1 < y.1 ∨ (x.1 = y.1 ∧ (x.2.1 < y.2.1 ∨ (x.2.1 = y.2.1 ∧ x.2.2 ≤ y.2.2)))

instance (x y : ℚ × ℚ × ℚ) : Decidable (tripleLex x y) := by
  unfold tripleLex; infer_instance

def sortKey (m : ModelScore) : ℚ × ℚ × ℚ := (-m.score, m.response_time, m.cost)

def msLE (a b : ModelScore) : Prop := tripleLex (sortKey a) (sortKey b)

instance : DecidableRel msLE := fun a b => by unfold msLE; infer_instance

instance : IsTotal ModelScore msLE := by
  constructor
  intro a b
  unfold msLE tripleLex
  rcases lt_trichotomy (sortKey a).1 (sortKey b).1 with h | h | h
  · exact Or.inl (Or.inl h)
  · rcases lt_trichotomy (sortKey a).2.1 (sortKey b).2.1 with h2 | h2 | h2
    · exact Or.inl (Or.inr ⟨h, Or.inl h2⟩)
    · rcases le_total (sortKey a).2.2 (sortKey b).2.2 with h3 | h3
      · exact Or.inl (Or.inr ⟨h, Or.inr ⟨h2, h3⟩⟩)
      · exact Or.inr (Or.inr ⟨h.symm, Or.inr ⟨h2.symm, h3⟩⟩)
    · exact Or.inr (Or.inr ⟨h.symm, Or.inl h2⟩)
  · exact Or.inr (Or.inl h)

instance : IsTrans ModelScore msLE := by
  constructor
  intro a b c hab hbc
  unfold msLE tripleLex at *
  rcases hab with h1 | ⟨h1, h1b⟩ <;> rcases hbc with h2 | ⟨h2, h2b⟩
  · exact Or.inl (lt_trans h1 h2)
  · exact Or.inl (lt_of_lt_of_eq h1 h2)
  · exact Or.inl (lt_of_eq_of_lt h1 h2)
  · refine Or.inr ⟨h1.trans h2, ?_⟩
    rcases h1b with h3 | ⟨h3, h3b⟩ <;> rcases h2b with h4 | ⟨h4, h4b⟩
    · exact Or.inl (lt_trans h3 h4)
    · exact Or.inl (lt_of_lt_of_eq h3 h4)
    · exact Or.inl (lt_of_eq_of_lt h3 h4)
    · exact Or.inr ⟨h3.trans h4, h3b.trans h4b⟩

/-- `EvaluationService._determine_winner`, up to the winning entry (the
human-readable `reason` string is not modelled): filter the completed
comparisons, build `model_scores`, stable-sort by
`(-score, response_time, cost)` and take the first element; `None` when no
comparison completed. -/
def determine_winner (comparisons : List Comparison) : Option ModelScore :=
  let successful_comparisons := comparisons.filter (fun c => c.status == "completed")
  if successful_comparisons = [] then Option.none
  else
    let model_scores := successful_comparisons.map scoreOf
    if model_scores = [] then Option.none
    else
      match List.insertionSort msLE model_scores with
      | [] => Option.none
      | winner :: _ => some winner

/-! ### Concrete inputs used by witnesses and counterexamples. -/

def ctxW : EvalCtx := ⟨"What is AI?", "AI is a field.", "AI is a field.", "", ""⟩

def ctxNoExpected : EvalCtx := ⟨"q", "hello", "", "", ""⟩

def registryOneFails : Registry :=
  [("basic", fun _ _ => .ok [("coherence", 4 / 5)]),
   ("ragas", fun _ _ => .error "connection refused"),
   ("custom", fun _ _ => .ok [])]

def registryAllFail : Registry :=
  [("basic", fun _ _ => .error "basic down"),
   ("ragas", fun _ _ => .error "ragas down")]

def singleW : EvalCtx → Except String ℕ :=
  fun e => if e.question = "bad" then .error "synthetic failure" else .ok e.question.length

def evalsW : List EvalCtx :=
  [⟨"alpha", "", "", "", ""⟩, ⟨"bad", "", "", "", ""⟩, ⟨"gamma", "", "", "", ""⟩]

/-- Scenario D, model A: composite score 0.9, response time 2 s, cost $0.01.
The extra non-numeric entry exercises the `isinstance` filter. -/
def comparisonA : Comparison :=
  ⟨"A", "completed", [("accuracy", .num (9 / 10)), ("note", .str "verbose")], [], 2, some (1 / 100)⟩

/-- Scenario D, model B: composite score 0.9, response time 1 s, cost $0.02. -/
def comparisonB : Comparison :=
  ⟨"B", "completed", [("accuracy", .num (9 / 10))], [], 1, some (1 / 50)⟩

/-! ## Theorems -/

theorem tokenizeAux_spec (l : List Char) :
    (∀ acc : List Char, acc ≠ [] →
      tokenizeAux l acc = (acc.reverse ++ l.takeWhile isWordChar) :: wordRuns (l.dropWhile isWordChar))
    ∧ tokenizeAux l [] = wordRuns l := by
  induction l with
  | nil =>
    constructor
    · intro acc hacc
      simp [tokenizeAux, hacc, wordRuns]
    · simp [tokenizeAux, wordRuns]
  | cons c cs ih =>
    constructor
    · intro acc hacc
      by_cases hc : isWordChar c
      · have h1 := ih.1 (c :: acc) (by simp)
        simp only [tokenizeAux, hc, if_true, h1, List.takeWhile_cons, List.dropWhile_cons]
        simp
      · simp [tokenizeAux, hc, hacc, List.takeWhile_cons, List.dropWhile_cons, wordRuns, ih.2]
    · by_cases hc : isWordChar c
      · have h1 := ih.1 [c] (by simp)
        simp only [tokenizeAux, hc, if_true, h1, wordRuns]
        simp [List.takeWhile_cons, List.dropWhile_cons, hc]
      · simp [tokenizeAux, hc, wordRuns, ih.2]

theorem wordRuns_mem {l : List Char} {t : List Char} (ht : t ∈ wordRuns l) :
    t ≠ [] ∧ ∀ c ∈ t, isWordChar c := by
  induction l using wordRuns.induct with
  | case1 => simp [wordRuns] at ht
  | case2 c cs hc ih =>
    rw [wordRuns, if_pos hc] at ht
    rcases List.mem_cons.mp ht with h | h
    · subst h
      refine ⟨by simp, ?_⟩
      intro d hd
      rcases List.mem_cons.mp hd with h | h
      · subst h; exact hc
      · exact List.mem_takeWhile_imp h
    · exact ih h
  | case3 c cs hc ih =>
    rw [wordRuns, if_neg hc] at ht
    exact ih ht

theorem length_get_ngrams (tokens : List String) (n : ℕ) (h : n ≤ tokens.length) :
    (get_ngrams tokens n).length = tokens.length - n + 1 := by
  simp [get_ngrams, Nat.not_lt.mpr h]

theorem lcs_length_self (l : List String) : lcs_length l l = l.length := by
  induction l with
  | nil => simp [lcs_length]
  | cons a x ih => simp [lcs_length, ih]

/-! ### Claim C9: the tokenizer. -/

/-- Claim C9 (corrected): `tokenize` lower-cases its input and returns exactly
the ordered maximal runs of word characters — alphanumeric characters or
underscore, the Python `\w` class — treating every other character as a
separator; empty input yields the empty sequence; the function is pure, so it
is deterministic and depends only on its argument. -/
theorem C9_tokenize_word_runs (s : String) :
    tokenize s = (wordRuns (s.data.map Char.toLower)).map (fun l => (⟨l⟩ : String))
    ∧ (s = "" → tokenize s = [])
    ∧ ∀ t ∈ tokenize s, t ≠ "" ∧ ∀ c ∈ t.data, (c.isAlphanum ∨ c = '_') := by
  have hdata : ("" : String).data = [] := rfl
  have hrun : tokenize s = (wordRuns (s.data.map Char.toLower)).map (fun l => (⟨l⟩ : String)) := by
    by_cases hs : s = ""
    · subst hs
      simp [tokenize, hdata, wordRuns]
    · simp [tokenize, hs, (tokenizeAux_spec _).2]
  refine ⟨hrun, fun hs => by simp [tokenize, hs], ?_⟩
  intro t ht
  rw [hrun] at ht
  rcases List.mem_map.mp ht with ⟨l, hl, rfl⟩
  obtain ⟨hne, hall⟩ := wordRuns_mem hl
  refine ⟨fun hmk => hne (congrArg String.data hmk), ?_⟩
  intro c hc
  have hw := hall c hc
  simp only [isWordChar, Bool.or_eq_true, beq_iff_eq] at hw
  exact hw

/-- Counterexample to claim C9 as stated: the Python `\w` class includes the
underscore, so `tokenize "a_b"` returns the single token `"a_b"`, which
contains the non-alphanumeric character `'_'`. -/
theorem C9_tokenize_counterexample :
    tokenize "a_b" = ["a_b"] ∧ '_' ∈ "a_b".data ∧ ¬ '_'.isAlphanum := by
  decide

theorem C9_tokenize_word_runs_witness :
    tokenize "" = [] ∧ ("hi" ≠ "" ∧ ∀ c ∈ "hi".data, (c.isAlphanum ∨ c = '_')) :=
  ⟨(C9_tokenize_word_runs "").2.1 rfl,
   (C9_tokenize_word_runs "Hi there!").2.2 "hi" (by decide)⟩

/-! ### Claim C5: ROUGE of a text with itself. -/

theorem toFinset_ne_empty {l : List String} (h : l ≠ []) : l.toFinset ≠ ∅ := by
  cases l with
  | nil => exact absurd rfl h
  | cons a as => simp

theorem toFinset_list_ne_empty {l : List (List String)} (h : l ≠ []) : l.toFinset ≠ ∅ := by
  cases l with
  | nil => exact absurd rfl h
  | cons a as => simp

theorem calculate_lcs_f1_self (l : List String) (h : l ≠ []) : calculate_lcs_f1 l l = 1 := by
  have hlen : ((l.length : ℚ)) ≠ 0 := by
    simp only [ne_eq, Nat.cast_eq_zero, List.length_eq_zero]
    exact h
  simp only [calculate_lcs_f1, lcs_length_self, or_self, if_neg h, div_self hlen]
  norm_num

theorem calculate_rouge_self (t : String) (h : tokenize t ≠ []) :
    calculate_rouge t t = ⟨1, if 2 ≤ (tokenize t).length then 1 else 0, 1⟩ := by
  have hS : (tokenize t).toFinset ≠ ∅ := toFinset_ne_empty h
  have hScard : (((tokenize t).toFinset.card : ℚ)) ≠ 0 := by
    simp only [ne_eq, Nat.cast_eq_zero, Finset.card_eq_zero]
    exact hS
  by_cases hlen : 2 ≤ (tokenize t).length
  · have hng : get_ngrams (tokenize t) 2 ≠ [] := by
      have h2 : ¬ (tokenize t).length < 2 := Nat.not_lt.mpr hlen
      simp only [get_ngrams, if_neg h2, ne_eq, List.map_eq_nil_iff, List.range_eq_nil]
      omega
    have hB : (get_ngrams (tokenize t) 2).toFinset ≠ ∅ := toFinset_list_ne_empty hng
    have hBcard : (((get_ngrams (tokenize t) 2).toFinset.card : ℚ)) ≠ 0 := by
      simp only [ne_eq, Nat.cast_eq_zero, Finset.card_eq_zero]
      exact hB
    simp only [calculate_rouge, or_self, if_neg h, Finset.inter_self, if_pos hS, if_pos hB,
      div_self hScard, div_self hBcard, calculate_lcs_f1_self _ h, if_pos hlen]
    norm_num
  · have hng : get_ngrams (tokenize t) 2 = [] := by
      have : (tokenize t).length < 2 := Nat.lt_of_not_le hlen
      simp [get_ngrams, this]
    simp only [calculate_rouge, or_self, if_neg h, Finset.inter_self, if_pos hS,
      div_self hScard, hng, calculate_lcs_f1_self _ h, if_neg hlen]
    norm_num

/-- Claim C5 (corrected): evaluating ROUGE with the same text as candidate and
reference yields 1.0 for ROUGE-1, ROUGE-2 and ROUGE-L only when the text has
at least two tokens.  A text with exactly one token scores 1.0 on ROUGE-1 and
ROUGE-L but 0.0 on ROUGE-2 (it has no bigrams, so both bigram precision and
recall are zero), and a non-empty text with no word characters at all scores
0.0 on all three. -/
theorem C5_rouge_self (t : String) :
    (2 ≤ (tokenize t).length → calculate_rouge t t = ⟨1, 1, 1⟩)
    ∧ ((tokenize t).length = 1 → calculate_rouge t t = ⟨1, 0, 1⟩)
    ∧ ((tokenize t).length = 0 → calculate_rouge t t = ⟨0, 0, 0⟩) := by
  refine ⟨?_, ?_, ?_⟩
  · intro hlen
    have h : tokenize t ≠ [] := by
      intro h0
      rw [h0] at hlen
      simp at hlen
    rw [calculate_rouge_self t h, if_pos hlen]
  · intro hlen
    have h : tokenize t ≠ [] := by
      intro h0
      rw [h0] at hlen
      simp at hlen
    have : ¬ 2 ≤ (tokenize t).length := by omega
    rw [calculate_rouge_self t h, if_neg this]
  · intro hlen
    have h : tokenize t = [] := List.length_eq_zero.mp hlen
    simp [calculate_rouge, h]

/-- Counterexample to claim C5 as stated: `"hi"` is a non-empty text, yet
ROUGE-2 of `"hi"` against itself is 0, not 1 (a single-token text has no
bigrams). -/
theorem C5_rouge_self_counterexample :
    "hi" ≠ "" ∧ (calculate_rouge "hi" "hi").rouge2 = 0 := by
  refine ⟨by decide, ?_⟩
  have htok : tokenize "hi" = ["hi"] := by decide
  have hng : get_ngrams ["hi"] 2 = [] := by decide
  simp [calculate_rouge, htok, hng]

theorem C5_rouge_self_witness :
    calculate_rouge "a b" "a b" = ⟨1, 1, 1⟩ ∧ calculate_rouge "?!" "?!" = ⟨0, 0, 0⟩ :=
  ⟨(C5_rouge_self "a b").1 (by decide), (C5_rouge_self "?!").2.2 (by decide)⟩

/-! ### Claim C7: the length-ratio scorer. -/

/-- Claim C7 (corrected): `lengthRatio` first returns 0.0 whenever the
reference *string* is empty — including when the candidate is also empty, so
the pair of empty strings scores 0.0, not 1.0.  For a non-empty reference it
returns `1 − |1 − candidateLen/referenceLen| / max(1, ratio)` over token
counts when the reference has tokens (hence exactly 1.0 on equal token
counts), and 1.0 or 0.0 by candidate emptiness when the non-empty reference
has no tokens. -/
theorem C7_length_ratio (candidate reference : String) :
    (reference = "" → calculate_length_ratio candidate reference = 0)
    ∧ (reference ≠ "" → (tokenize reference).length = 0 →
        calculate_length_ratio candidate reference =
          (if (tokenize candidate).length = 0 then 1 else 0))
    ∧ (reference ≠ "" → 0 < (tokenize reference).length →
        calculate_length_ratio candidate reference =
          1 - |1 - ((tokenize candidate).length : ℚ) / ((tokenize reference).length : ℚ)| /
            max 1 (((tokenize candidate).length : ℚ) / ((tokenize reference).length : ℚ)))
    ∧ (reference ≠ "" → (tokenize candidate).length = (tokenize reference).length →
        calculate_length_ratio candidate reference = 1) := by
  refine ⟨?_, ?_, ?_, ?_⟩
  · intro h
    simp [calculate_length_ratio, h]
  · intro h h0
    simp [calculate_length_ratio, h, h0]
  · intro h h0
    simp [calculate_length_ratio, h, Nat.pos_iff_ne_zero.mp h0]
  · intro h heq
    rcases Nat.eq_zero_or_pos (tokenize reference).length with h0 | h0
    · simp [calculate_length_ratio, h, h0, heq ▸ h0]
    · have hne : ((tokenize reference).length : ℚ) ≠ 0 := by
        simp only [ne_eq, Nat.cast_eq_zero]
        omega
      simp only [calculate_length_ratio, if_neg h, if_neg (by omega : ¬ (tokenize reference).length = 0),
        heq, div_self hne]
      norm_num

/-- Counterexample to claim C7 as stated: the candidate and the reference
`""` have equal token counts (both zero), yet the score is 0.0, not 1.0,
because the `if not reference` guard fires before the token-count logic. -/
theorem C7_length_ratio_counterexample :
    (tokenize "").length = (tokenize "").length
      ∧ calculate_length_ratio "" "" = 0 ∧ (0 : ℚ) ≠ 1 := by
  refine ⟨rfl, ?_, by norm_num⟩
  simp [calculate_length_ratio]

theorem C7_length_ratio_witness :
    calculate_length_ratio "a b" "c d" = 1 ∧ calculate_length_ratio "x" "" = 0 :=
  ⟨(C7_length_ratio "a b" "c d").2.2.2 (by decide) (by decide),
   (C7_length_ratio "x" "").1 rfl⟩

/-! ### Claim C10: degenerate inputs of the coherence scorer. -/

theorem listMin_le_listMax (l : List ℕ) (h : l ≠ []) : listMin l ≤ listMax l := by
  induction l with
  | nil => exact absurd rfl h
  | cons a t ih =>
    cases t with
    | nil => simp [listMin, listMax]
    | cons b u =>
      simp only [listMin, listMax]
      exact le_trans (min_le_left _ _) (le_max_left _ _)

theorem coherence_pos_of_multi (s : String) (hs : s ≠ "")
    (h2 : 2 ≤ (sentencesOf s).length) : 0 < calculate_coherence s := by
  have hnotlt : ¬ (sentencesOf s).length < 2 := Nat.not_lt.mpr h2
  have hsent : sentencesOf s ≠ [] := by
    intro h0
    rw [h0] at h2
    simp at h2
  have hlens : (sentencesOf s).map (fun t => (tokenize t).length) ≠ [] := by
    simp only [ne_eq, List.map_eq_nil_iff]
    exact hsent
  have hM0 : (0 : ℚ) ≤ (listMax ((sentencesOf s).map (fun t => (tokenize t).length)) : ℚ) :=
    Nat.cast_nonneg _
  have hm0 : (0 : ℚ) ≤ (listMin ((sentencesOf s).map (fun t => (tokenize t).length)) : ℚ) :=
    Nat.cast_nonneg _
  have hv : 0 < 1 - ((listMax ((sentencesOf s).map (fun t => (tokenize t).length)) : ℚ)
      - (listMin ((sentencesOf s).map (fun t => (tokenize t).length)) : ℚ))
      / ((listMax ((sentencesOf s).map (fun t => (tokenize t).length)) : ℚ) + 1) := by
    have hlt : ((listMax ((sentencesOf s).map (fun t => (tokenize t).length)) : ℚ)
        - (listMin ((sentencesOf s).map (fun t => (tokenize t).length)) : ℚ))
        / ((listMax ((sentencesOf s).map (fun t => (tokenize t).length)) : ℚ) + 1) < 1 := by
      rw [div_lt_one (by linarith)]
      linarith
    linarith
  have hc : (0 : ℚ) ≤ min 1
      (((connectors.filter (fun con => containsSeq con.data (s.data.map Char.toLower))).length : ℚ)
        / ((sentencesOf s).length : ℚ)) :=
    le_min (by norm_num) (div_nonneg (Nat.cast_nonneg _) (Nat.cast_nonneg _))
  simp only [calculate_coherence, if_neg hs, if_neg hnotlt, if_pos hlens]
  by_cases hent : findEntities s.data false ≠ []
  · rw [if_pos hent, if_pos hent, if_pos (by norm_num : ((1 : ℚ) + 1 + 1) > 0)]
    have he : (0 : ℚ) ≤ ((findEntities s.data false).dedup.length : ℚ)
        / ((findEntities s.data false).length : ℚ) :=
      div_nonneg (Nat.cast_nonneg _) (Nat.cast_nonneg _)
    apply div_pos
    · linarith
    · norm_num
  · rw [if_neg hent, if_neg hent, if_pos (by norm_num : ((0 : ℚ) + 1 + 1) > 0)]
    apply div_pos
    · linarith
    · norm_num

/-- Claim C10 (confirmed): any non-empty text that splits into fewer than two
non-blank sentences — including punctuation-only or whitespace-only text with
no word tokens at all — scores exactly 0.8 on coherence, and the coherence
score is 0.0 exactly for the empty string, so token-less non-empty input
scores 0.8 rather than the 0.0 the other scorers give for missing content. -/
theorem C10_coherence_degenerate (s : String) :
    (s ≠ "" → (sentencesOf s).length < 2 → calculate_coherence s = 4 / 5)
    ∧ (calculate_coherence s = 0 ↔ s = "") := by
  constructor
  · intro hs hlt
    simp [calculate_coherence, hs, hlt]
  · constructor
    · intro h0
      by_contra hs
      rcases Nat.lt_or_ge (sentencesOf s).length 2 with hlt | hge
      · rw [show calculate_coherence s = 4 / 5 by simp [calculate_coherence, hs, hlt]] at h0
        norm_num at h0
      · exact absurd h0 (ne_of_gt (coherence_pos_of_multi s hs hge))
    · intro h
      subst h
      simp [calculate_coherence]

theorem C10_coherence_degenerate_witness :
    calculate_coherence "?!?" = 4 / 5 ∧ calculate_coherence "Hello world" = 4 / 5
      ∧ calculate_coherence "" = 0 :=
  ⟨(C10_coherence_degenerate "?!?").1 (by decide) (by decide),
   (C10_coherence_degenerate "Hello world").1 (by decide) (by decide),
   (C10_coherence_degenerate "").2.mpr rfl⟩

/-! ### Claim C3: bulk evaluation. -/

theorem evaluate_bulk_eq_map {R : Type} (single : EvalCtx → Except String R)
    (batch_size : ℕ) (hbs : 0 < batch_size) (evals : List EvalCtx) :
    evaluate_bulk single batch_size evals = evals.map (bulkProcessOne single) := by
  have key : ∀ (n : ℕ) (l : List EvalCtx), l.length ≤ n →
      evaluate_bulk single batch_size l = l.map (bulkProcessOne single) := by
    intro n
    induction n with
    | zero =>
      intro l hl
      have h0 : l = [] := List.length_eq_zero.mp (Nat.le_zero.mp hl)
      subst h0
      rw [evaluate_bulk]
      simp
    | succ n ih =>
      intro l hl
      rw [evaluate_bulk]
      by_cases hnil : l = []
      · simp [hnil]
      · rw [dif_neg (by push_neg; exact ⟨by omega, hnil⟩)]
        rw [ih (l.drop batch_size) (by
          have : 0 < l.length := List.length_pos.mpr hnil
          simp only [List.length_drop]
          omega)]
        rw [List.map_take, List.map_drop, List.take_append_drop]
  exact key evals.length evals le_rfl

/-- Claim C3 (confirmed): for every positive batch size and input list,
`evaluate_bulk` returns exactly one output per input, in input order; each
output is the result the item would produce in isolation, so a failing item
`i` yields an error record at position `i` carrying its original error and
request data, while every other position carries that item's own success
result. -/
theorem C3_evaluate_bulk_order (R : Type) (single : EvalCtx → Except String R)
    (batch_size : ℕ) (hbs : 0 < batch_size) (evals : List EvalCtx) :
    evaluate_bulk single batch_size evals = evals.map (bulkProcessOne single)
    ∧ (evaluate_bulk single batch_size evals).length = evals.length
    ∧ (∀ (i : ℕ) (e : EvalCtx) (msg : String), evals[i]? = some e → single e = .error msg →
        (evaluate_bulk single batch_size evals)[i]? = some (.failed msg e))
    ∧ (∀ (i : ℕ) (e : EvalCtx) (r : R), evals[i]? = some e → single e = .ok r →
        (evaluate_bulk single batch_size evals)[i]? = some (.success r)) := by
  rw [evaluate_bulk_eq_map single batch_size hbs]
  refine ⟨rfl, by simp, ?_, ?_⟩
  · intro i e msg hi hsingle
    rw [List.getElem?_map, hi]
    simp [bulkProcessOne, hsingle]
  · intro i e r hi hsingle
    rw [List.getElem?_map, hi]
    simp [bulkProcessOne, hsingle]

theorem C3_evaluate_bulk_order_witness :
    (evaluate_bulk singleW 2 evalsW).length = 3
    ∧ (evaluate_bulk singleW 2 evalsW)[1]? =
        some (.failed "synthetic failure" ⟨"bad", "", "", "", ""⟩)
    ∧ (evaluate_bulk singleW 2 evalsW)[0]? = some (.success 5) := by
  refine ⟨?_, ?_, ?_⟩
  · rw [(C3_evaluate_bulk_order ℕ singleW 2 (by norm_num) evalsW).2.1]
    rfl
  · exact (C3_evaluate_bulk_order ℕ singleW 2 (by norm_num) evalsW).2.2.1 1
      ⟨"bad", "", "", "", ""⟩ "synthetic failure" rfl rfl
  · exact (C3_evaluate_bulk_order ℕ singleW 2 (by norm_num) evalsW).2.2.2 0
      ⟨"alpha", "", "", "", ""⟩ 5 rfl rfl

/-! ### Claim C1: per-framework failure isolation in the fan-out. -/

theorem zip_map_self {α β γ : Type} (l : List α) (g : α → β) (h : α × β → γ) :
    (l.zip (l.map g)).map h = l.map (fun a => h (a, g a)) := by
  induction l with
  | nil => rfl
  | cons a t ih => simp [ih]

theorem countP_map_eq {α β : Type} (l : List α) (f : α → β) (p : β → Bool) (q : α → Bool)
    (hpq : ∀ a, p (f a) = q a) : (l.map f).countP p = l.countP q := by
  induction l with
  | nil => rfl
  | cons a t ih => simp only [List.map_cons, List.countP_cons, ih, hpq a]

theorem countP_add_countP_not {α : Type} (l : List α) (q : α → Bool) :
    l.countP q + l.countP (fun a => !q a) = l.length := by
  induction l with
  | nil => rfl
  | cons a t ih =>
    cases hq : q a <;> simp [List.countP_cons, hq] <;> omega

theorem framework_scores_eq (registry : Registry) (ctx : EvalCtx)
    (sel : Option (List String)) :
    (run_evaluations registry ctx sel).framework_scores =
      registry.map (fun nf =>
        (nf.1,
          match nf.2 ctx sel with
          | Except.ok m => FrameworkResult.ok m
          | Except.error e => FrameworkResult.error e)) := by
  simp only [run_evaluations]
  rw [zip_map_self]

/-- Claim C1 (confirmed): the fan-out of `evaluate_single` over the framework
registry is a total function — it returns an aggregated result with exactly
one `framework_scores` entry per registered framework, never raising.  A
framework whose run returns normally contributes its own result at its own
position regardless of the other frameworks, a framework that throws
contributes an error entry carrying its message, so when exactly one of N
frameworks throws there are N−1 successful entries and exactly one error
entry, and when every framework fails the call still returns a normal
aggregated result whose entries are all error entries. -/
theorem C1_run_evaluations_isolation (registry : Registry) (ctx : EvalCtx)
    (sel : Option (List String)) :
    (run_evaluations registry ctx sel).framework_scores.length = registry.length
    ∧ (∀ (i : ℕ) (n : String) (f : EvalCtx → Option (List String) → Except String MetricMap)
          (m : MetricMap), registry[i]? = some (n, f) → f ctx sel = .ok m →
        (run_evaluations registry ctx sel).framework_scores[i]? = some (n, .ok m))
    ∧ (∀ (i : ℕ) (n : String) (f : EvalCtx → Option (List String) → Except String MetricMap)
          (e : String), registry[i]? = some (n, f) → f ctx sel = .error e →
        (run_evaluations registry ctx sel).framework_scores[i]? = some (n, .error e))
    ∧ (registry.countP (fun nf => exceptFails (nf.2 ctx sel)) = 1 →
        (run_evaluations registry ctx sel).framework_scores.countP
            (fun s => s.2.isError) = 1
        ∧ (run_evaluations registry ctx sel).framework_scores.countP
            (fun s => !s.2.isError) = registry.length - 1)
    ∧ ((∀ nf ∈ registry, exceptFails (nf.2 ctx sel) = true) →
        ∀ s ∈ (run_evaluations registry ctx sel).framework_scores, s.2.isError = true) := by
  simp only [framework_scores_eq]
  have hpt : ∀ nf : String × (EvalCtx → Option (List String) → Except String MetricMap),
      (FrameworkResult.isError
        (match nf.2 ctx sel with
          | Except.ok m => FrameworkResult.ok m
          | Except.error e => FrameworkResult.error e)) = exceptFails (nf.2 ctx sel) := by
    intro nf
    cases h : nf.2 ctx sel <;> simp [h, FrameworkResult.isError, exceptFails]
  refine ⟨by simp, ?_, ?_, ?_, ?_⟩
  · intro i n f m hi hf
    rw [List.getElem?_map, hi]
    simp [hf]
  · intro i n f e hi hf
    rw [List.getElem?_map, hi]
    simp [hf]
  · intro hcount
    have herr := countP_map_eq registry
      (fun nf =>
        (nf.1,
          match nf.2 ctx sel with
          | Except.ok m => FrameworkResult.ok m
          | Except.error e => FrameworkResult.error e))
      (fun s => s.2.isError) (fun nf => exceptFails (nf.2 ctx sel)) (fun nf => hpt nf)
    have hok := countP_map_eq registry
      (fun nf =>
        (nf.1,
          match nf.2 ctx sel with
          | Except.ok m => FrameworkResult.ok m
          | Except.error e => FrameworkResult.error e))
      (fun s => !s.2.isError) (fun nf => !exceptFails (nf.2 ctx sel))
      (fun nf => by simp only [hpt nf])
    have htot := countP_add_countP_not registry (fun nf => exceptFails (nf.2 ctx sel))
    refine ⟨by rw [herr, hcount], ?_⟩
    rw [hok]
    omega
  · intro hall s hs
    rcases List.mem_map.mp hs with ⟨nf, hnf, rfl⟩
    rw [hpt nf]
    exact hall nf hnf

theorem C1_run_evaluations_isolation_witness :
    (run_evaluations registryOneFails ctxW none).framework_scores.countP
        (fun s => s.2.isError) = 1
    ∧ (run_evaluations registryOneFails ctxW none).framework_scores.countP
        (fun s => !s.2.isError) = 2
    ∧ (run_evaluations registryOneFails ctxW none).framework_scores[0]? =
        some ("basic", .ok [("coherence", 4 / 5)])
    ∧ ∀ s ∈ (run_evaluations registryAllFail ctxW none).framework_scores,
        s.2.isError = true := by
  refine ⟨?_, ?_, ?_, ?_⟩
  · exact ((C1_run_evaluations_isolation registryOneFails ctxW none).2.2.2.1 (by decide)).1
  · exact ((C1_run_evaluations_isolation registryOneFails ctxW none).2.2.2.1 (by decide)).2
  · exact (C1_run_evaluations_isolation registryOneFails ctxW none).2.1 0 "basic"
      (fun _ _ => .ok [("coherence", 4 / 5)]) [("coherence", 4 / 5)] rfl rfl
  · exact (C1_run_evaluations_isolation registryAllFail ctxW none).2.2.2.2 (by decide)

/-! ### Claim C2: the comparator's composite score, ranking and winner. -/

theorem msLE_refl (a : ModelScore) : msLE a a :=
  Or.inr ⟨rfl, Or.inr ⟨rfl, le_refl _⟩⟩

theorem compositeOf_comparisonA : compositeOf comparisonA = 9 / 10 := by
  norm_num [compositeOf, allScoresOf, comparisonA, numericOf, List.filterMap_cons,
    List.filterMap_nil, List.flatMap_nil, List.sum_cons, List.sum_nil]

theorem compositeOf_comparisonB : compositeOf comparisonB = 9 / 10 := by
  norm_num [compositeOf, allScoresOf, comparisonB, numericOf, List.filterMap_cons,
    List.filterMap_nil, List.flatMap_nil, List.sum_cons, List.sum_nil]

theorem scoreOf_comparisonA : scoreOf comparisonA = ⟨"A", 9 / 10, 2, 1 / 100⟩ := by
  simp only [scoreOf, compositeOf_comparisonA]
  rfl

theorem scoreOf_comparisonB : scoreOf comparisonB = ⟨"B", 9 / 10, 1, 1 / 50⟩ := by
  simp only [scoreOf, compositeOf_comparisonB]
  rfl

theorem winner_scenarioD :
    determine_winner [comparisonA, comparisonB] = some (scoreOf comparisonB) := by
  have hfilter : [comparisonA, comparisonB].filter (fun c => c.status == "completed")
      = [comparisonA, comparisonB] := rfl
  have hAB : ¬ msLE (scoreOf comparisonA) (scoreOf comparisonB) := by
    rw [scoreOf_comparisonA, scoreOf_comparisonB]
    simp only [msLE, tripleLex, sortKey]
    norm_num
  simp only [determine_winner, hfilter]
  rw [if_neg (by simp), if_neg (by simp), List.map_cons, List.map_cons, List.map_nil]
  rw [show List.insertionSort msLE [scoreOf comparisonA, scoreOf comparisonB]
      = [scoreOf comparisonB, scoreOf comparisonA] from by
    simp [List.insertionSort, List.orderedInsert, hAB]]

/-- Claim C2 (confirmed): the comparator's winner is `None` exactly when no
comparison completed; otherwise the winner is the score record of a completed
model whose sort key `(-compositeScore, responseTime, cost)` is
lexicographically minimal among all completed models, where the composite
score is the arithmetic mean of the numeric values present (non-numeric
values excluded, 0 if none).  In particular, for completed models A
(composite 0.9, 2 s, $0.01, with a non-numeric entry excluded from the mean)
and B (composite 0.9, 1 s, $0.02), the winner is B by the response-time
tie-break. -/
theorem C2_determine_winner (comparisons : List Comparison) :
    (determine_winner comparisons = Option.none ↔
      comparisons.filter (fun c => c.status == "completed") = [])
    ∧ (∀ w : ModelScore, determine_winner comparisons = some w →
        (∃ c ∈ comparisons, c.status = "completed" ∧ scoreOf c = w)
        ∧ ∀ c ∈ comparisons, c.status = "completed" → msLE w (scoreOf c))
    ∧ compositeOf comparisonA = 9 / 10
    ∧ compositeOf comparisonB = 9 / 10
    ∧ (determine_winner [comparisonA, comparisonB]).map (fun w => w.model) = some "B" := by
  refine ⟨?_, ?_, compositeOf_comparisonA, compositeOf_comparisonB, by
    rw [winner_scenarioD, scoreOf_comparisonB]
    rfl⟩
  · by_cases hf : comparisons.filter (fun c => c.status == "completed") = []
    · simp [determine_winner, hf]
    · have hms : (comparisons.filter (fun c => c.status == "completed")).map scoreOf ≠ [] := by
        simp only [ne_eq, List.map_eq_nil_iff]
        exact hf
      have hperm := List.perm_insertionSort msLE
        ((comparisons.filter (fun c => c.status == "completed")).map scoreOf)
      have hsne : List.insertionSort msLE
          ((comparisons.filter (fun c => c.status == "completed")).map scoreOf) ≠ [] := by
        intro h0
        rw [h0] at hperm
        exact hms (hperm.symm.eq_nil)
      obtain ⟨w, rest, hw⟩ := List.exists_cons_of_ne_nil hsne
      simp only [determine_winner, if_neg hf, if_neg hms, hw]
      simp [hf]
  · intro w hw
    by_cases hf : comparisons.filter (fun c => c.status == "completed") = []
    · rw [show determine_winner comparisons = Option.none from by
        simp [determine_winner, hf]] at hw
      exact Option.noConfusion hw
    · have hms : (comparisons.filter (fun c => c.status == "completed")).map scoreOf ≠ [] := by
        simp only [ne_eq, List.map_eq_nil_iff]
        exact hf
      have hperm := List.perm_insertionSort msLE
        ((comparisons.filter (fun c => c.status == "completed")).map scoreOf)
      have hsne : List.insertionSort msLE
          ((comparisons.filter (fun c => c.status == "completed")).map scoreOf) ≠ [] := by
        intro h0
        rw [h0] at hperm
        exact hms (hperm.symm.eq_nil)
      obtain ⟨w', rest, hw'⟩ := List.exists_cons_of_ne_nil hsne
      have hdw : determine_winner comparisons = some w' := by
        simp only [determine_winner, if_neg hf, if_neg hms, hw']
      rw [hdw] at hw
      injection hw with hww
      subst hww
      have hsorted := List.sorted_insertionSort msLE
        ((comparisons.filter (fun c => c.status == "completed")).map scoreOf)
      rw [hw'] at hsorted hperm
      have hwmem : w' ∈ (comparisons.filter (fun c => c.status == "completed")).map scoreOf :=
        hperm.mem_iff.mp (List.mem_cons_self _ _)
      rcases List.mem_map.mp hwmem with ⟨c, hc, hcw⟩
      have hcmem := List.mem_filter.mp hc
      refine ⟨⟨c, hcmem.1, by simpa using hcmem.2, hcw⟩, ?_⟩
      intro c' hc' hstat
      have hmem1 : scoreOf c' ∈ (comparisons.filter (fun c => c.status == "completed")).map scoreOf :=
        List.mem_map_of_mem _ (List.mem_filter.mpr ⟨hc', by simp [hstat]⟩)
      have hmem2 : scoreOf c' ∈ w' :: rest := hperm.mem_iff.mpr hmem1
      rcases List.mem_cons.mp hmem2 with he | he
      · rw [he]
        exact msLE_refl _
      · exact (List.sorted_cons.mp hsorted).1 _ he

theorem C2_determine_winner_witness :
    (∃ c ∈ [comparisonA, comparisonB], c.status = "completed" ∧ scoreOf c = scoreOf comparisonB)
    ∧ ∀ c ∈ [comparisonA, comparisonB], c.status = "completed" →
        msLE (scoreOf comparisonB) (scoreOf c) :=
  (C2_determine_winner [comparisonA, comparisonB]).2.1 (scoreOf comparisonB) winner_scenarioD

/-! ### Claim C8: BLEU. -/

theorem bleu_precision_self_pos (t : String) (n : ℕ)
    (h : get_ngrams (tokenize t) n ≠ []) : 0 < bleu_precision t t n := by
  simp only [bleu_precision, if_neg h]
  apply div_pos
  · have hd : (get_ngrams (tokenize t) n).dedup ≠ [] := by
      simp only [ne_eq, List.dedup_eq_nil]
      exact h
    obtain ⟨g0, t0, hdd⟩ := List.exists_cons_of_ne_nil hd
    have hmem : g0 ∈ get_ngrams (tokenize t) n := by
      rw [← List.mem_dedup, hdd]
      exact List.mem_cons_self _ _
    have hc : 0 < (get_ngrams (tokenize t) n).count g0 := List.count_pos_iff.mpr hmem
    rw [hdd, List.map_cons, List.sum_cons, min_self]
    have : (0 : ℕ) < (get_ngrams (tokenize t) n).count g0
        + ((t0.map (fun g => min ((get_ngrams (tokenize t) n).count g)
            ((get_ngrams (tokenize t) n).count g))).sum) := by omega
    exact_mod_cast this
  · have : 0 < (get_ngrams (tokenize t) n).length := List.length_pos.mpr h
    exact_mod_cast this

/-- Claim C8 (confirmed): BLEU returns 0.0 when either token sequence is
empty; the geometric mean collapses to 0 (and hence the whole score) whenever
any order's clipped precision is 0 — there is no smoothing; when all four
precisions are positive, the score equals the brevity penalty
`min(1, exp(1 - |reference| / |candidate|))` times the equally-weighted
(0.25 each) geometric mean `(p1·p2·p3·p4)^(1/4)` of the clipped precisions;
in particular BLEU of candidate `"a"` against reference `"a b c d e"` is 0. -/
theorem C8_bleu (candidate reference : String) :
    (tokenize candidate = [] ∨ tokenize reference = [] →
      calculate_bleu candidate reference = 0)
    ∧ ((∃ p ∈ bleu_precisions candidate reference, p = 0) →
        calculate_bleu candidate reference = 0)
    ∧ ((∀ p ∈ bleu_precisions candidate reference, 0 < p) →
        tokenize candidate ≠ [] → tokenize reference ≠ [] →
        calculate_bleu candidate reference =
          min 1 (Real.exp (1 - ((tokenize reference).length : ℝ)
              / ((tokenize candidate).length : ℝ)))
            * (((bleu_precision candidate reference 1 : ℚ) : ℝ)
              * ((bleu_precision candidate reference 2 : ℚ) : ℝ)
              * ((bleu_precision candidate reference 3 : ℚ) : ℝ)
              * ((bleu_precision candidate reference 4 : ℚ) : ℝ)) ^ ((1 : ℝ) / 4))
    ∧ calculate_bleu "a" "a b c d e" = 0 := by
  refine ⟨?_, ?_, ?_, ?_⟩
  · intro h
    simp only [calculate_bleu, if_pos h]
  · rintro ⟨p, hp, hp0⟩
    have hall : (bleu_precisions candidate reference).all (fun p => decide (0 < p)) = false := by
      rw [List.all_eq_false]
      exact ⟨p, hp, by simp [hp0]⟩
    by_cases hemp : tokenize candidate = [] ∨ tokenize reference = []
    · simp only [calculate_bleu, if_pos hemp]
    · simp only [calculate_bleu, if_neg hemp, hall]
      simp
  · intro hall hc hr
    have hallb : (bleu_precisions candidate reference).all (fun p => decide (0 < p)) = true := by
      rw [List.all_eq_true]
      intro p hp
      simpa using hall p hp
    have hemp : ¬ (tokenize candidate = [] ∨ tokenize reference = []) := by
      push_neg
      exact ⟨hc, hr⟩
    have h1 : (0 : ℝ) < ((bleu_precision candidate reference 1 : ℚ) : ℝ) := by
      exact_mod_cast hall _ (List.mem_map_of_mem _ (by decide))
    have h2 : (0 : ℝ) < ((bleu_precision candidate reference 2 : ℚ) : ℝ) := by
      exact_mod_cast hall _ (List.mem_map_of_mem _ (by decide))
    have h3 : (0 : ℝ) < ((bleu_precision candidate reference 3 : ℚ) : ℝ) := by
      exact_mod_cast hall _ (List.mem_map_of_mem _ (by decide))
    have h4 : (0 : ℝ) < ((bleu_precision candidate reference 4 : ℚ) : ℝ) := by
      exact_mod_cast hall _ (List.mem_map_of_mem _ (by decide))
    simp only [calculate_bleu, if_neg hemp, hallb, if_true]
    congr 1
    rw [show bleu_precisions candidate reference
        = [bleu_precision candidate reference 1, bleu_precision candidate reference 2,
           bleu_precision candidate reference 3, bleu_precision candidate reference 4] from rfl]
    simp only [List.map_cons, List.map_nil, List.sum_cons, List.sum_nil, add_zero]
    rw [Real.rpow_def_of_pos (by positivity)]
    rw [Real.log_mul (by positivity) (ne_of_gt h4),
      Real.log_mul (by positivity) (ne_of_gt h3),
      Real.log_mul (ne_of_gt h1) (ne_of_gt h2)]
    congr 1
    ring
  · have hp2 : bleu_precision "a" "a b c d e" 2 = 0 := by
      have hng : get_ngrams (tokenize "a") 2 = [] := by decide
      simp [bleu_precision, hng]
    have hall : (bleu_precisions "a" "a b c d e").all (fun p => decide (0 < p)) = false := by
      rw [List.all_eq_false]
      refine ⟨bleu_precision "a" "a b c d e" 2,
        List.mem_map_of_mem _ (by decide), ?_⟩
      rw [hp2]
      simp
    have hemp : ¬ (tokenize "a" = [] ∨ tokenize "a b c d e" = []) := by decide
    simp only [calculate_bleu, if_neg hemp, hall]
    simp

theorem C8_bleu_witness :
    calculate_bleu "" "x" = 0
    ∧ calculate_bleu "a b" "a c" = 0
    ∧ calculate_bleu "a b c d" "a b c d" =
        min 1 (Real.exp (1 - ((tokenize "a b c d").length : ℝ)
            / ((tokenize "a b c d").length : ℝ)))
          * (((bleu_precision "a b c d" "a b c d" 1 : ℚ) : ℝ)
            * ((bleu_precision "a b c d" "a b c d" 2 : ℚ) : ℝ)
            * ((bleu_precision "a b c d" "a b c d" 3 : ℚ) : ℝ)
            * ((bleu_precision "a b c d" "a b c d" 4 : ℚ) : ℝ)) ^ ((1 : ℝ) / 4) := by
  have hz : bleu_precision "a b" "a c" 2 = 0 := by
    have hng : ¬ (get_ngrams (tokenize "a b") 2 = []) := by decide
    have hsum : (((get_ngrams (tokenize "a b") 2).dedup).map
        (fun g => min ((get_ngrams (tokenize "a b") 2).count g)
          ((get_ngrams (tokenize "a c") 2).count g))).sum = 0 := by decide
    simp [bleu_precision, hng, hsum]
  refine ⟨(C8_bleu "" "x").1 (Or.inl (by decide)), ?_, ?_⟩
  · exact (C8_bleu "a b" "a c").2.1
      ⟨bleu_precision "a b" "a c" 2, List.mem_map_of_mem _ (by decide), hz⟩
  · refine (C8_bleu "a b c d" "a b c d").2.2.1 ?_ (by decide) (by decide)
    intro p hp
    have hp' : p = bleu_precision "a b c d" "a b c d" 1
        ∨ p = bleu_precision "a b c d" "a b c d" 2
        ∨ p = bleu_precision "a b c d" "a b c d" 3
        ∨ p = bleu_precision "a b c d" "a b c d" 4 := by
      simpa [bleu_precisions] using hp
    rcases hp' with h | h | h | h <;>
      rw [h] <;>
      exact bleu_precision_self_pos _ _ (by decide)

/-! ### Claim C6: gating of metrics on `expected_answer`. -/

theorem mem_ite_nil {α : Type} {c : Prop} [Decidable c] {l : List α} {a : α} :
    a ∈ (if c then l else []) ↔ c ∧ a ∈ l := by
  split
  · simp [*]
  · simp [*]

theorem map_fst_pair {β : Type} (v : String → β) (l : List String) :
    l.map (Prod.fst ∘ fun m => (m, v m)) = l := by
  induction l with
  | nil => rfl
  | cons a t ih => simp [ih]

theorem evaluate_keys (ctx : EvalCtx) (selected : Option (List String)) :
    (evaluate ctx selected).map Prod.fst =
      (if ctx.expected_answer ≠ ""
          ∧ (effective_metrics selected).any (fun m => "rouge".data.isPrefixOf m.data) then
        ["rouge1", "rouge2", "rougeL"].filter (fun m => m ∈ effective_metrics selected)
       else [])
      ++ (if "bleu" ∈ effective_metrics selected ∧ ctx.expected_answer ≠ ""
          then ["bleu"] else [])
      ++ (if "meteor_approx" ∈ effective_metrics selected ∧ ctx.expected_answer ≠ ""
          then ["meteor_approx"] else [])
      ++ (if "coherence" ∈ effective_metrics selected then ["coherence"] else [])
      ++ (if "relevance" ∈ effective_metrics selected then ["relevance"] else [])
      ++ (if "fluency" ∈ effective_metrics selected then ["fluency"] else [])
      ++ (if "informativeness" ∈ effective_metrics selected then ["informativeness"] else [])
      ++ (if "length_ratio" ∈ effective_metrics selected ∧ ctx.expected_answer ≠ ""
          then ["length_ratio"] else [])
      ++ (if "word_overlap" ∈ effective_metrics selected ∧ ctx.expected_answer ≠ ""
          then ["word_overlap"] else [])
      ++ (if "sentence_similarity" ∈ effective_metrics selected ∧ ctx.expected_answer ≠ ""
          then ["sentence_similarity"] else []) := by
  simp only [evaluate, List.map_append, apply_ite (List.map (Prod.fst (α := String) (β := ℝ))),
    List.map_map, List.map_cons, List.map_nil]
  rw [map_fst_pair]

/-- Claim C6 (corrected): the metrics engine gates the three ROUGE variants,
BLEU, length ratio, word overlap, sentence similarity *and also the
approximate-alignment `meteor_approx` score* on a non-empty `expectedAnswer`;
only coherence, relevance, fluency and informativeness are computed
regardless.  So a selected `meteor_approx` is absent from the returned
mapping when `expectedAnswer` is absent, contrary to the claim. -/
theorem C6_evaluate_gating (ctx : EvalCtx) (selected : Option (List String)) :
    (∀ m ∈ gated_metrics,
      (m ∈ (evaluate ctx selected).map Prod.fst ↔
        m ∈ effective_metrics selected ∧ ctx.expected_answer ≠ ""))
    ∧ (∀ m ∈ available_metrics, m ∉ gated_metrics →
        (m ∈ (evaluate ctx selected).map Prod.fst ↔ m ∈ effective_metrics selected)) := by
  constructor
  · intro m hm
    rw [evaluate_keys]
    fin_cases hm
    · -- rouge1
      simp only [List.mem_append, mem_ite_nil, List.mem_filter, List.mem_cons,
        List.mem_singleton, List.not_mem_nil]
      simp
      constructor
      · rintro ⟨⟨hexp, _⟩, hmm⟩
        exact ⟨hmm, hexp⟩
      · rintro ⟨hmm, hexp⟩
        exact ⟨⟨hexp, ⟨_, hmm, by decide⟩⟩, hmm⟩
    · -- rouge2
      simp only [List.mem_append, mem_ite_nil, List.mem_filter, List.mem_cons,
        List.mem_singleton, List.not_mem_nil]
      simp
      constructor
      · rintro ⟨⟨hexp, _⟩, hmm⟩
        exact ⟨hmm, hexp⟩
      · rintro ⟨hmm, hexp⟩
        exact ⟨⟨hexp, ⟨_, hmm, by decide⟩⟩, hmm⟩
    · -- rougeL
      simp only [List.mem_append, mem_ite_nil, List.mem_filter, List.mem_cons,
        List.mem_singleton, List.not_mem_nil]
      simp
      constructor
      · rintro ⟨⟨hexp, _⟩, hmm⟩
        exact ⟨hmm, hexp⟩
      · rintro ⟨hmm, hexp⟩
        exact ⟨⟨hexp, ⟨_, hmm, by decide⟩⟩, hmm⟩
    · -- bleu
      simp only [List.mem_append, mem_ite_nil, List.mem_filter, List.mem_cons,
        List.mem_singleton, List.not_mem_nil]
      simp
    · -- meteor_approx
      simp only [List.mem_append, mem_ite_nil, List.mem_filter, List.mem_cons,
        List.mem_singleton, List.not_mem_nil]
      simp
    · -- length_ratio
      simp only [List.mem_append, mem_ite_nil, List.mem_filter, List.mem_cons,
        List.mem_singleton, List.not_mem_nil]
      simp
    · -- word_overlap
      simp only [List.mem_append, mem_ite_nil, List.mem_filter, List.mem_cons,
        List.mem_singleton, List.not_mem_nil]
      simp
    · -- sentence_similarity
      simp only [List.mem_append, mem_ite_nil, List.mem_filter, List.mem_cons,
        List.mem_singleton, List.not_mem_nil]
      simp
  · intro m hm hng
    rw [evaluate_keys]
    fin_cases hm
    · exact absurd (by decide) hng
    · exact absurd (by decide) hng
    · exact absurd (by decide) hng
    · exact absurd (by decide) hng
    · exact absurd (by decide) hng
    · simp
    · simp
    · simp
    · simp
    · exact absurd (by decide) hng
    · exact absurd (by decide) hng
    · exact absurd (by decide) hng

theorem C6_evaluate_gating_counterexample :
    "meteor_approx" ∈ effective_metrics (some ["meteor_approx"])
    ∧ ctxNoExpected.answer ≠ ""
    ∧ evaluate ctxNoExpected (some ["meteor_approx"]) = [] :=
  ⟨by decide, by decide, rfl⟩

theorem C6_evaluate_gating_witness :
    "meteor_approx" ∉ (evaluate ctxNoExpected (some ["meteor_approx"])).map Prod.fst
    ∧ "coherence" ∈ (evaluate ctxNoExpected (some ["coherence"])).map Prod.fst :=
  ⟨fun h =>
    (((C6_evaluate_gating ctxNoExpected (some ["meteor_approx"])).1 "meteor_approx"
      (by decide)).mp h).2 rfl,
   ((C6_evaluate_gating ctxNoExpected (some ["coherence"])).2 "coherence"
      (by decide) (by decide)).mpr (by decide)⟩

/-! ### Claim C4: all heuristic scorers are bounded in [0, 1]. -/

theorem unit_div {a b : ℚ} (h0 : 0 ≤ a) (h1 : a ≤ b) : 0 ≤ a / b ∧ a / b ≤ 1 := by
  rcases eq_or_lt_of_le (le_trans h0 h1) with hb | hb
  · rw [← hb]
    norm_num
  · exact ⟨div_nonneg h0 (le_of_lt hb), (div_le_one hb).mpr h1⟩

theorem card_div_unit_left (s t : Finset String) :
    0 ≤ ((s ∩ t).card : ℚ) / (s.card : ℚ) ∧ ((s ∩ t).card : ℚ) / (s.card : ℚ) ≤ 1 :=
  unit_div (Nat.cast_nonneg _)
    (by exact_mod_cast Finset.card_le_card (Finset.inter_subset_left))

theorem card_div_unit_right (s t : Finset String) :
    0 ≤ ((s ∩ t).card : ℚ) / (t.card : ℚ) ∧ ((s ∩ t).card : ℚ) / (t.card : ℚ) ≤ 1 :=
  unit_div (Nat.cast_nonneg _)
    (by exact_mod_cast Finset.card_le_card (Finset.inter_subset_right))

theorem jaccard_unit (s t : Finset String) :
    0 ≤ ((s ∩ t).card : ℚ) / ((s ∪ t).card : ℚ)
      ∧ ((s ∩ t).card : ℚ) / ((s ∪ t).card : ℚ) ≤ 1 :=
  unit_div (Nat.cast_nonneg _)
    (by exact_mod_cast Finset.card_le_card (Finset.inter_subset_union))

theorem mean_unit (l : List ℚ) (h : ∀ x ∈ l, 0 ≤ x ∧ x ≤ 1) :
    0 ≤ l.sum / (l.length : ℚ) ∧ l.sum / (l.length : ℚ) ≤ 1 := by
  apply unit_div
  · exact List.sum_nonneg (fun x hx => (h x hx).1)
  · have := List.sum_le_card_nsmul l 1 (fun x hx => (h x hx).2)
    simpa using this

theorem fmean_unit {P R : ℚ} (hP0 : 0 ≤ P) (hP1 : P ≤ 1) (hR0 : 0 ≤ R) (hR1 : R ≤ 1)
    (hPR : ¬ P + R = 0) :
    0 ≤ 10 * P * R / (9 * P + R) ∧ 10 * P * R / (9 * P + R) ≤ 1 := by
  have hpos : 0 < P + R := lt_of_le_of_ne (by linarith) (fun h => hPR h.symm)
  have hden : 0 < 9 * P + R := by linarith
  have e1 : P * R ≤ R := by nlinarith
  have e2 : P * R ≤ P := by nlinarith
  constructor
  · exact div_nonneg (by positivity) (le_of_lt hden)
  · rw [div_le_one hden]
    nlinarith

theorem calculate_meteor_approx_unit (candidate reference : String) :
    0 ≤ calculate_meteor_approx candidate reference
      ∧ calculate_meteor_approx candidate reference ≤ 1 := by
  by_cases hemp : tokenize candidate = [] ∨ tokenize reference = []
  · simp [calculate_meteor_approx, hemp]
  · push_neg at hemp
    obtain ⟨hc, hr⟩ := hemp
    have hcs : (tokenize candidate).toFinset ≠ ∅ := toFinset_ne_empty hc
    have hrs : (tokenize reference).toFinset ≠ ∅ := toFinset_ne_empty hr
    have hP := card_div_unit_left (tokenize candidate).toFinset (tokenize reference).toFinset
    have hR := card_div_unit_right (tokenize candidate).toFinset (tokenize reference).toFinset
    have hmle : (((tokenize candidate).toFinset ∩ (tokenize reference).toFinset).card : ℚ)
        ≤ ((tokenize candidate).length : ℚ) := by
      have h1' : ((tokenize candidate).toFinset ∩ (tokenize reference).toFinset).card
          ≤ (tokenize candidate).toFinset.card :=
        Finset.card_le_card (Finset.inter_subset_left)
      have h2' : (tokenize candidate).toFinset.card ≤ (tokenize candidate).length :=
        (tokenize candidate).toFinset_card_le
      exact_mod_cast le_trans h1' h2'
    have hpen := unit_div (a := (((tokenize candidate).toFinset
        ∩ (tokenize reference).toFinset).card : ℚ))
      (b := ((tokenize candidate).length : ℚ)) (Nat.cast_nonneg _) hmle
    simp only [calculate_meteor_approx]
    rw [if_neg (show ¬ (tokenize candidate = [] ∨ tokenize reference = []) from by
      push_neg
      exact ⟨hc, hr⟩), if_pos hcs, if_pos hrs]
    split_ifs with hz
    · norm_num
    · have hfm := fmean_unit hP.1 hP.2 hR.1 hR.2 hz
      constructor
      · apply mul_nonneg hfm.1
        nlinarith [hpen.2]
      · apply mul_le_one₀ hfm.2
        · nlinarith [hpen.2]
        · nlinarith [hpen.1]

theorem calculate_relevance_unit (question answer context : String) :
    0 ≤ calculate_relevance question answer context
      ∧ calculate_relevance question answer context ≤ 1 := by
  simp only [calculate_relevance]
  have hq := card_div_unit_left (tokenize question).toFinset (tokenize answer).toFinset
  have hcb := card_div_unit_left (tokenize context).toFinset (tokenize answer).toFinset
  split_ifs <;> constructor
  all_goals linarith [hq.1, hq.2, hcb.1, hcb.2]

theorem calculate_word_overlap_unit (candidate reference : String) :
    0 ≤ calculate_word_overlap candidate reference
      ∧ calculate_word_overlap candidate reference ≤ 1 := by
  simp only [calculate_word_overlap]
  have hj := jaccard_unit (tokenize candidate).toFinset (tokenize reference).toFinset
  split_ifs
  · exact ⟨by norm_num, le_refl 1⟩
  · exact ⟨le_refl 0, by norm_num⟩
  · exact hj
  · exact ⟨le_refl 0, by norm_num⟩

theorem calculate_informativeness_unit (text : String) :
    0 ≤ calculate_informativeness text ∧ calculate_informativeness text ≤ 1 := by
  simp only [calculate_informativeness]
  have hvr : (0 : ℚ) ≤ ((tokenize text).dedup.length : ℚ) / ((tokenize text).length : ℚ) :=
    div_nonneg (Nat.cast_nonneg _) (Nat.cast_nonneg _)
  have hcr : (0 : ℚ) ≤ (((tokenize text).filter (fun t => decide (t ∉ stop_words))).length : ℚ)
      / ((tokenize text).length : ℚ) :=
    div_nonneg (Nat.cast_nonneg _) (Nat.cast_nonneg _)
  split_ifs
  · exact ⟨le_refl 0, by norm_num⟩
  · exact ⟨le_refl 0, by norm_num⟩
  · constructor
    · exact le_min (by norm_num) (by linarith [hvr, hcr])
    · exact min_le_left _ _

theorem calculate_length_ratio_unit (candidate reference : String) :
    0 ≤ calculate_length_ratio candidate reference
      ∧ calculate_length_ratio candidate reference ≤ 1 := by
  simp only [calculate_length_ratio]
  have hr0 : (0 : ℚ) ≤ ((tokenize candidate).length : ℚ) / ((tokenize reference).length : ℚ) :=
    div_nonneg (Nat.cast_nonneg _) (Nat.cast_nonneg _)
  have habs : |1 - ((tokenize candidate).length : ℚ) / ((tokenize reference).length : ℚ)|
      ≤ max 1 (((tokenize candidate).length : ℚ) / ((tokenize reference).length : ℚ)) := by
    rcases le_total (((tokenize candidate).length : ℚ)
        / ((tokenize reference).length : ℚ)) 1 with h | h
    · rw [abs_of_nonneg (by linarith)]
      exact le_trans (by linarith) (le_max_left _ _)
    · rw [abs_of_nonpos (by linarith)]
      exact le_trans (by linarith) (le_max_right _ _)
  have hdiv := unit_div (abs_nonneg _) habs
  split_ifs
  · exact ⟨le_refl 0, by norm_num⟩
  · exact ⟨by norm_num, le_refl 1⟩
  · exact ⟨le_refl 0, by norm_num⟩
  · exact ⟨by linarith [hdiv.2], by linarith [hdiv.1]⟩

theorem calculate_sentence_similarity_unit (candidate reference : String) :
    0 ≤ calculate_sentence_similarity candidate reference
      ∧ calculate_sentence_similarity candidate reference ≤ 1 := by
  simp only [calculate_sentence_similarity]
  split_ifs with h1 h2
  · exact ⟨le_refl 0, by norm_num⟩
  · apply mean_unit
    intro x hx
    rcases List.mem_map.mp hx with ⟨cand_sent, hcs, rfl⟩
    have key : ∀ (rs : List String) (b : ℚ), 0 ≤ b → b ≤ 1 →
        0 ≤ rs.foldl (fun best_sim ref_sent =>
          if (tokenize cand_sent).toFinset ≠ ∅ ∧ (tokenize ref_sent).toFinset ≠ ∅ then
            max best_sim
              (if ((tokenize cand_sent).toFinset ∪ (tokenize ref_sent).toFinset) ≠ ∅ then
                (((tokenize cand_sent).toFinset ∩ (tokenize ref_sent).toFinset).card : ℚ)
                  / (((tokenize cand_sent).toFinset ∪ (tokenize ref_sent).toFinset).card : ℚ)
               else 0)
          else best_sim) b
        ∧ rs.foldl (fun best_sim ref_sent =>
          if (tokenize cand_sent).toFinset ≠ ∅ ∧ (tokenize ref_sent).toFinset ≠ ∅ then
            max best_sim
              (if ((tokenize cand_sent).toFinset ∪ (tokenize ref_sent).toFinset) ≠ ∅ then
                (((tokenize cand_sent).toFinset ∩ (tokenize ref_sent).toFinset).card : ℚ)
                  / (((tokenize cand_sent).toFinset ∪ (tokenize ref_sent).toFinset).card : ℚ)
               else 0)
          else best_sim) b ≤ 1 := by
      intro rs
      induction rs with
      | nil => intro b hb0 hb1; exact ⟨hb0, hb1⟩
      | cons r t ih =>
        intro b hb0 hb1
        simp only [List.foldl_cons]
        apply ih
        · split_ifs with hcond huni
          · exact le_max_of_le_left hb0
          · exact le_max_of_le_left hb0
          · exact hb0
        · split_ifs with hcond huni
          · exact max_le hb1 (jaccard_unit _ _).2
          · exact max_le hb1 (by norm_num)
          · exact hb1
    exact key _ 0 le_rfl (by norm_num)
  · exact ⟨le_refl 0, by norm_num⟩

theorem dedup_length_le {α : Type} [DecidableEq α] (l : List α) :
    l.dedup.length ≤ l.length :=
  List.Sublist.length_le (List.dedup_sublist l)

theorem score_div_unit (s f : ℚ) (hs0 : 0 ≤ s) (hsf : s ≤ f) :
    0 ≤ (if f > 0 then s / f else 1 / 2) ∧ (if f > 0 then s / f else 1 / 2) ≤ 1 := by
  split_ifs with hf
  · exact unit_div hs0 hsf
  · norm_num

theorem calculate_coherence_unit (text : String) :
    0 ≤ calculate_coherence text ∧ calculate_coherence text ≤ 1 := by
  by_cases htext : text = ""
  · simp [calculate_coherence, htext]
  · by_cases hlt : (sentencesOf text).length < 2
    · simp only [calculate_coherence, if_neg htext, if_pos hlt]
      norm_num
    · have hsent : sentencesOf text ≠ [] := by
        intro h0
        rw [h0] at hlt
        simp at hlt
      have hlens : (sentencesOf text).map (fun t => (tokenize t).length) ≠ [] := by
        simp only [ne_eq, List.map_eq_nil_iff]
        exact hsent
      have hminmax : (listMin ((sentencesOf text).map (fun t => (tokenize t).length)) : ℚ)
          ≤ (listMax ((sentencesOf text).map (fun t => (tokenize t).length)) : ℚ) := by
        exact_mod_cast listMin_le_listMax _ hlens
      have hm0 : (0 : ℚ) ≤ (listMin ((sentencesOf text).map (fun t => (tokenize t).length)) : ℚ) :=
        Nat.cast_nonneg _
      have hvd := unit_div
        (a := (listMax ((sentencesOf text).map (fun t => (tokenize t).length)) : ℚ)
          - (listMin ((sentencesOf text).map (fun t => (tokenize t).length)) : ℚ))
        (b := (listMax ((sentencesOf text).map (fun t => (tokenize t).length)) : ℚ) + 1)
        (sub_nonneg.mpr hminmax) (by linarith)
      have hcs : (0 : ℚ) ≤ min 1
          (((connectors.filter (fun con => containsSeq con.data (text.data.map Char.toLower))).length : ℚ)
            / ((sentencesOf text).length : ℚ))
          ∧ min 1
          (((connectors.filter (fun con => containsSeq con.data (text.data.map Char.toLower))).length : ℚ)
            / ((sentencesOf text).length : ℚ)) ≤ 1 :=
        ⟨le_min (by norm_num) (div_nonneg (Nat.cast_nonneg _) (Nat.cast_nonneg _)),
         min_le_left _ _⟩
      have hed := unit_div
        (a := ((findEntities text.data false).dedup.length : ℚ))
        (b := ((findEntities text.data false).length : ℚ))
        (Nat.cast_nonneg _) (by exact_mod_cast dedup_length_le _)
      simp only [calculate_coherence, if_neg htext, if_neg hlt]
      apply score_div_unit
      · split_ifs <;> linarith [hed.1, hcs.1, hvd.1, hvd.2]
      · split_ifs <;> linarith [hed.2, hcs.2, hvd.1, hvd.2]

theorem calculate_fluency_unit (text : String) :
    0 ≤ calculate_fluency text ∧ calculate_fluency text ≤ 1 := by
  by_cases htext : text = ""
  · simp [calculate_fluency, htext]
  · have hf1 : (0 : ℚ) ≤ max 0 (1 - |((sentencesOf text).map
          (fun s => ((tokenize s).length : ℚ))).sum / ((sentencesOf text).length : ℚ) - 15| / 20)
        ∧ max 0 (1 - |((sentencesOf text).map
          (fun s => ((tokenize s).length : ℚ))).sum / ((sentencesOf text).length : ℚ) - 15| / 20) ≤ 1 := by
      constructor
      · exact le_max_left _ _
      · apply max_le (by norm_num)
        have := abs_nonneg (((sentencesOf text).map
          (fun s => ((tokenize s).length : ℚ))).sum / ((sentencesOf text).length : ℚ) - 15)
        linarith [div_nonneg this (by norm_num : (0:ℚ) ≤ 20)]
    have hf2 : (0 : ℚ) ≤ max 0 (1 - |(((tokenize text).filter
          (fun t => decide (t ∈ grammar_markers))).length : ℚ) / ((tokenize text).length : ℚ)
            - 3 / 10| / (3 / 10))
        ∧ max 0 (1 - |(((tokenize text).filter
          (fun t => decide (t ∈ grammar_markers))).length : ℚ) / ((tokenize text).length : ℚ)
            - 3 / 10| / (3 / 10)) ≤ 1 := by
      constructor
      · exact le_max_left _ _
      · apply max_le (by norm_num)
        have := abs_nonneg ((((tokenize text).filter
          (fun t => decide (t ∈ grammar_markers))).length : ℚ) / ((tokenize text).length : ℚ)
            - 3 / 10)
        linarith [div_nonneg this (by norm_num : (0:ℚ) ≤ 3 / 10)]
    have hf3 : (0 : ℚ) ≤ min 1 (((text.data.filter
          (fun c => decide (c = '.' ∨ c = '!' ∨ c = '?'))).length : ℚ)
            / ((sentencesOf text).length : ℚ))
        ∧ min 1 (((text.data.filter
          (fun c => decide (c = '.' ∨ c = '!' ∨ c = '?'))).length : ℚ)
            / ((sentencesOf text).length : ℚ)) ≤ 1 :=
      ⟨le_min (by norm_num) (div_nonneg (Nat.cast_nonneg _) (Nat.cast_nonneg _)),
       min_le_left _ _⟩
    simp only [calculate_fluency, if_neg htext]
    apply score_div_unit
    · split_ifs <;> linarith [hf1.1, hf2.1, hf3.1]
    · split_ifs <;> linarith [hf1.1, hf1.2, hf2.1, hf2.2, hf3.1, hf3.2]

/-- Claim C4 (confirmed): for all input strings, every heuristic scorer — the
approximate-alignment (METEOR-like) score, coherence, relevance, fluency,
informativeness, length ratio, word overlap and sentence similarity — returns
a value in the closed interval [0, 1]. -/
theorem C4_heuristic_scorers_unit_interval :
    (∀ candidate reference : String,
      0 ≤ calculate_meteor_approx candidate reference
        ∧ calculate_meteor_approx candidate reference ≤ 1)
    ∧ (∀ text : String, 0 ≤ calculate_coherence text ∧ calculate_coherence text ≤ 1)
    ∧ (∀ question answer context : String,
        0 ≤ calculate_relevance question answer context
          ∧ calculate_relevance question answer context ≤ 1)
    ∧ (∀ text : String, 0 ≤ calculate_fluency text ∧ calculate_fluency text ≤ 1)
    ∧ (∀ text : String,
        0 ≤ calculate_informativeness text ∧ calculate_informativeness text ≤ 1)
    ∧ (∀ candidate reference : String,
        0 ≤ calculate_length_ratio candidate reference
          ∧ calculate_length_ratio candidate reference ≤ 1)
    ∧ (∀ candidate reference : String,
        0 ≤ calculate_word_overlap candidate reference
          ∧ calculate_word_overlap candidate reference ≤ 1)
    ∧ (∀ candidate reference : String,
        0 ≤ calculate_sentence_similarity candidate reference
          ∧ calculate_sentence_similarity candidate reference ≤ 1) :=
  ⟨calculate_meteor_approx_unit, calculate_coherence_unit, calculate_relevance_unit,
   calculate_fluency_unit, calculate_informativeness_unit, calculate_length_ratio_unit,
   calculate_word_overlap_unit, calculate_sentence_similarity_unit⟩

end LLMEval
